import Mathlib

/-!
Verification of the gpt-rag-ui streaming pipeline.

Shallow embedding of the chat-stream decoder (`src/app.py: handle_message`),
the conversation-id extractor, the reference resolver
(`resolve_reference_href`, `replace_source_reference_links`), the blob SAS-URL
generation (`src/app.py: generate_blob_sas_url`,
`src/connectors/blob.py: BlobClient.generate_sas_url`), the authorization
lookup (`check_authorization`), the orchestrator stream client
(`src/orchestrator_client.py: call_orchestrator_stream`) and the blob download
endpoint (`src/main.py: download_blob_file`, `handle_file_download`).

Strings are modelled as `List Char`, with `Char` standing for one text byte
for the purposes of percent-decoding (faithful for ASCII input, which is the
only kind the regexes involved can produce for the decisive positions).
External I/O (blob existence, SAS signing, HTTP) is modelled by oracle
parameters.
-/

set_option maxRecDepth 40000

namespace GptRagUi

/-- Whitespace characters recognised by the embedding of Python's `str.strip`
and of the regex class `\s` (the ASCII part; the repository only ever
produces ASCII whitespace at the decisive positions). -/
def isSpaceChar (c : Char) : Bool :=
  c = ' ' || c = '\t' || c = '\n' || c = '\r' || c = '\x0b' || c = '\x0c'

/-- Python `str.lstrip()` (ASCII whitespace). -/
def lstripWs (s : List Char) : List Char := s.dropWhile isSpaceChar

/-- Strip characters satisfying `p` from both ends, as Python's `str.strip`. -/
def stripWith (p : Char → Bool) (s : List Char) : List Char :=
  ((s.dropWhile p).reverse.dropWhile p).reverse

/-- Python `str.strip()` with no argument (ASCII whitespace part). -/
def pyStrip (s : List Char) : List Char := stripWith isSpaceChar s

/-- Python `str.lower()` (ASCII part, which is all the repository compares). -/
def lowerStr (s : List Char) : List Char := s.map Char.toLower

/-- Python `str.find(pat)`: index of the first occurrence of `pat`, or `none`
for Python's `-1`. -/
def strFind (pat : List Char) : List Char → Option Nat
  | [] => if pat.isEmpty then some 0 else none
  | c :: rest =>
    if pat.isPrefixOf (c :: rest) then some 0
    else (strFind pat rest).map (· + 1)

/-- Python `pat in s` (substring containment). -/
def hasSub (pat s : List Char) : Bool := (strFind pat s).isSome

/-- Fuel-driven worker for `replaceAll`; with fuel at least `s.length` it
computes Python's `s.replace(pat, rep)` for a non-empty `pat` (the repository
only ever replaces the non-empty literals `"\\n"`, `"\\"` and `"TERMINATE"`). -/
def replaceAllAux (pat rep : List Char) : Nat → List Char → List Char
  | _, [] => []
  | 0, s => s
  | fuel + 1, c :: rest =>
    if pat ≠ [] ∧ pat.isPrefixOf (c :: rest) then
      rep ++ replaceAllAux pat rep fuel ((c :: rest).drop pat.length)
    else
      c :: replaceAllAux pat rep fuel rest

/-- Python `s.replace(pat, rep)` for non-empty `pat`: leftmost,
non-overlapping replacement. -/
def replaceAll (pat rep s : List Char) : List Char := replaceAllAux pat rep s.length s

/-- Hex digit as accepted by `UUID_REGEX`'s `[0-9a-f]` under `re.IGNORECASE`
(src/constants.py). -/
def isHexDigitCI (c : Char) : Bool :=
  c.isDigit || ('a' ≤ c && c ≤ 'f') || ('A' ≤ c && c ≤ 'F')

/-- Take exactly `n` leading hex digits, returning them and the remainder. -/
def hexRun (n : Nat) (s : List Char) : Option (List Char × List Char) :=
  let h := s.take n
  if h.length = n ∧ h.all isHexDigitCI then some (h, s.drop n) else none

/-- Expect a literal dash. -/
def expectDash : List Char → Option (List Char)
  | '-' :: rest => some rest
  | _ => none

/-- Match the 8-4-4-4-12 hex-group body of `UUID_REGEX` (src/constants.py),
returning the matched characters (original case, as `match.group(1)` does)
and the remainder. -/
def matchUuid (s : List Char) : Option (List Char × List Char) := do
  let (g1, r1) ← hexRun 8 s
  let r2 ← expectDash r1
  let (g2, r3) ← hexRun 4 r2
  let r4 ← expectDash r3
  let (g3, r5) ← hexRun 4 r4
  let r6 ← expectDash r5
  let (g4, r7) ← hexRun 4 r6
  let r8 ← expectDash r7
  let (g5, r9) ← hexRun 12 r8
  pure (g1 ++ '-' :: g2 ++ '-' :: g3 ++ '-' :: g4 ++ '-' :: g5, r9)

/-- src/app.py `extract_conversation_id_from_chunk`: match
`UUID_REGEX = ^\s*(uuid)\s+` against the chunk; on success return the captured
id and the chunk after `match.end()` (the greedy `\s+` consumes every
following whitespace character); otherwise return the chunk unchanged. -/
def extract_conversation_id_from_chunk (chunk : List Char) :
    Option (List Char) × List Char :=
  match matchUuid (chunk.dropWhile isSpaceChar) with
  | some (uuidChars, rest) =>
    if (rest.takeWhile isSpaceChar) ≠ [] then
      (some uuidChars, rest.dropWhile isSpaceChar)
    else (none, chunk)
  | none => (none, chunk)

/-- Value of a hex digit. -/
def hexVal (c : Char) : Nat :=
  if c.isDigit then c.toNat - '0'.toNat
  else if 'a' ≤ c && c ≤ 'f' then c.toNat - 'a'.toNat + 10
  else c.toNat - 'A'.toNat + 10

/-- `urllib.parse.unquote`, byte-level: each valid `%XX` escape becomes the
character with that code, an invalid escape keeps its `%` literally (as
CPython does). Multi-byte UTF-8 sequences decode to one `Char` per byte in
this model. -/
def unquote : List Char → List Char
  | [] => []
  | '%' :: a :: b :: rest2 =>
    if isHexDigitCI a && isHexDigitCI b then
      Char.ofNat (16 * hexVal a + hexVal b) :: unquote rest2
    else '%' :: unquote (a :: b :: rest2)
  | c :: rest => c :: unquote rest

/-- Result shape of `urllib.parse.urlsplit`. -/
structure UrlSplitResult where
  scheme : List Char
  netloc : List Char
  path : List Char
  query : List Char
  fragment : List Char
deriving Repr, DecidableEq

/-- Characters allowed in a URL scheme by `urllib.parse`. -/
def isSchemeChar (c : Char) : Bool :=
  c.isAlpha || c.isDigit || c = '+' || c = '-' || c = '.'

/-- Split at the first occurrence of `sep`; `none` when `sep` is absent. -/
def splitOnceAt (sep : Char) (s : List Char) : List Char × Option (List Char) :=
  if s.contains sep then
    (s.takeWhile (fun c => c != sep), some ((s.dropWhile (fun c => c != sep)).drop 1))
  else (s, none)

/-- WHATWG C0-control-or-space predicate used by CPython's `urlsplit`. -/
def c0ControlOrSpace (c : Char) : Bool := c.toNat ≤ 32

/-- CPython's `urlsplit` removes tab, CR and LF anywhere in the URL. -/
def removeTabsAndNewlines (s : List Char) : List Char :=
  s.filter (fun c => c != '\t' && c != '\r' && c != '\n')

/-- `urllib.parse.urlsplit` (modern CPython): left-strip C0 controls and
space, remove tab/CR/LF, detect a scheme (letters-first run of scheme
characters before the first `:`), a `//`-netloc, then split off fragment and
query in that order. -/
def urlsplit (url0 : List Char) : UrlSplitResult :=
  let url1 := removeTabsAndNewlines (url0.dropWhile c0ControlOrSpace)
  let headIsAlpha : Bool :=
    match url1.head? with
    | some c0 => c0.isAlpha
    | none => false
  let schemeSplit : List Char × List Char :=
    match url1.findIdx? (fun c => c == ':') with
    | some i =>
      if 0 < i ∧ (url1.take i).all isSchemeChar ∧ headIsAlpha then
        (lowerStr (url1.take i), url1.drop (i + 1))
      else ([], url1)
    | none => ([], url1)
  let scheme := schemeSplit.1
  let netlocSplit : List Char × List Char :=
    if schemeSplit.2.take 2 = ['/', '/'] then
      ((schemeSplit.2.drop 2).takeWhile (fun c => c != '/' && c != '?' && c != '#'),
       (schemeSplit.2.drop 2).dropWhile (fun c => c != '/' && c != '?' && c != '#'))
    else ([], schemeSplit.2)
  let netloc := netlocSplit.1
  let fragSplit :=
    match splitOnceAt '#' netlocSplit.2 with
    | (a, some b) => (a, b)
    | (a, none) => (a, ([] : List Char))
  let querySplit :=
    match splitOnceAt '?' fragSplit.1 with
    | (a, some b) => (a, b)
    | (a, none) => (a, ([] : List Char))
  ⟨scheme, netloc, querySplit.1, querySplit.2, fragSplit.2⟩

/-- src/constants.py `SUPPORTED_EXTENSIONS`. -/
def SUPPORTED_EXTENSIONS : List (List Char) :=
  ["pdf".toList, "bmp".toList, "jpeg".toList, "jpg".toList, "png".toList,
   "tiff".toList, "xlsx".toList, "docx".toList, "pptx".toList, "md".toList,
   "txt".toList, "html".toList, "shtml".toList, "htm".toList, "py".toList,
   "csv".toList, "xml".toList, "json".toList, "vtt".toList]

/-- src/app.py `IMAGE_EXTENSIONS`. -/
def IMAGE_EXTENSIONS : List (List Char) :=
  ["bmp".toList, "jpeg".toList, "jpg".toList, "png".toList, "tiff".toList]

/-- src/constants.py `TERMINATE_TOKEN`. -/
def TERMINATE_TOKEN : List Char := "TERMINATE".toList

/-- The `REFERENCE_REGEX` target check: `[^)]+\.(?:ext1|...|extN)` must fill
the whole span up to the closing parenthesis, so the span's lowercase form
must end in a dot followed by a supported extension, with at least one
character before that dot (`re.IGNORECASE` applies to the extension letters). -/
def extensionOk (target : List Char) : Bool :=
  SUPPORTED_EXTENSIONS.any (fun e =>
    ('.' :: e).isSuffixOf (lowerStr target) && e.length + 2 ≤ target.length)

/-- Attempt to match `REFERENCE_REGEX = \[([^\]]+)\]\(([^)]+\.(?:exts))\)` at
the head of `s`; on success return the display text, the raw target and the
remainder after the closing parenthesis.  The display group runs to the first
`]` (its class excludes `]`), the target group runs to the first `)` and must
pass `extensionOk`. -/
def tryMatchRef (s : List Char) : Option (List Char × List Char × List Char) :=
  match s with
  | [] => none
  | c :: afterOpen =>
    if c = '[' then
      if (afterOpen.takeWhile (fun x => x != ']')).isEmpty then none
      else
        match afterOpen.dropWhile (fun x => x != ']') with
        | x1 :: x2 :: afterParen =>
          if x1 = ']' ∧ x2 = '(' then
            match afterParen.dropWhile (fun x => x != ')') with
            | y :: afterMatch =>
              if y = ')' ∧ extensionOk (afterParen.takeWhile (fun x => x != ')')) then
                some (afterOpen.takeWhile (fun x => x != ']'),
                      afterParen.takeWhile (fun x => x != ')'), afterMatch)
              else none
            | [] => none
          else none
        | _ => none
    else none

/-- Fuel-driven embedding of `REFERENCE_REGEX.sub(replacer, text)` from
src/app.py `replace_source_reference_links`: scan left to right; at each
position try the pattern; a resolvable match is rewritten to
`[display](resolved)` and its resolved URL is recorded, an unresolvable match
is replaced by the empty string, a failed attempt advances one character.
With fuel at least `s.length` the scan is complete. -/
def subRefsAux (resolve : List Char → Option (List Char)) :
    Nat → List Char → List Char × List (List Char)
  | _, [] => ([], [])
  | 0, s => (s, [])
  | fuel + 1, c :: rest =>
    match tryMatchRef (c :: rest) with
    | some (display, target, afterMatch) =>
      let tail := subRefsAux resolve fuel afterMatch
      match resolve target with
      | some resolved =>
        ('[' :: display ++ ']' :: '(' :: resolved ++ ')' :: tail.1, resolved :: tail.2)
      | none => tail
    | none =>
      let tail := subRefsAux resolve fuel rest
      (c :: tail.1, tail.2)

/-- Configuration values read by src/app.py: `STORAGE_ACCOUNT_NAME` and the
two container names (already passed through `_normalize_container_name`, as
the module-level constants `DOCUMENTS_CONTAINER` / `IMAGES_CONTAINER` are). -/
structure AppConfig where
  storageAccountName : List Char
  documentsContainer : List Char
  imagesContainer : List Char

/-- Modelled from the spec: the blob collaborator interface of section 6
(`exists(container, blobName) -> bool` and the signing capability used by
`signedUrl`).  `BlobClient.exists`, called at src/app.py line 61, is not part
of the sources under review, and SAS signing is a network call: both are
oracle parameters.  `sasToken container blob = some tok` means signing
succeeds and `generate_sas_url` appends `?tok` to the blob URL
(src/connectors/blob.py line 121); `none` means the signing SDK call raises,
which `generate_sas_url` catches, falling back to the plain blob URL
(src/connectors/blob.py lines 125-128). -/
structure BlobStore where
  blobExists : List Char → List Char → Bool
  sasToken : List Char → List Char → Option (List Char)

/-- The direct (unsigned) blob URL built at src/app.py line 59. -/
def blobDirectUrl (cfg : AppConfig) (container blob_name : List Char) : List Char :=
  "https://".toList ++ cfg.storageAccountName ++ ".blob.core.windows.net/".toList
    ++ container ++ '/' :: blob_name

/-- src/connectors/blob.py `BlobClient.generate_sas_url`: on signing success
return `file_url?sas_token`; on any signing failure fall back to the plain
`file_url`.  It never raises. -/
def generate_sas_url (store : BlobStore) (container blob_name file_url : List Char) :
    List Char :=
  match store.sasToken container blob_name with
  | some tok => file_url ++ '?' :: tok
  | none => file_url

/-- src/app.py `generate_blob_sas_url`: build the direct blob URL, raise
`FileNotFoundError` (the `Except.error` case) when the blob does not exist,
otherwise delegate to `BlobClient.generate_sas_url`. -/
def generate_blob_sas_url (cfg : AppConfig) (store : BlobStore)
    (container blob_name : List Char) : Except Unit (List Char) :=
  let blob_url := blobDirectUrl cfg container blob_name
  if store.blobExists container blob_name then
    Except.ok (generate_sas_url store container blob_name blob_url)
  else Except.error ()

/-- Suffix of `path` after its last dot (`path.rsplit(".", 1)[-1]`). -/
def afterLastDot (path : List Char) : List Char :=
  ((path.reverse).takeWhile (fun c => c != '.')).reverse

/-- Container selection of src/app.py lines 113-118: image extensions route
to the images container; the documents container is the default, with each
falling back to the other when unconfigured. -/
def containerFor (cfg : AppConfig) (path : List Char) : List Char :=
  let extension := if path.contains '.' then lowerStr (afterLastDot path) else []
  if IMAGE_EXTENSIONS.contains extension && !cfg.imagesContainer.isEmpty then
    cfg.imagesContainer
  else if cfg.documentsContainer.isEmpty && !cfg.imagesContainer.isEmpty then
    cfg.imagesContainer
  else cfg.documentsContainer

/-- Blob-name extraction of src/app.py lines 120-129: strip an explicit
leading `container/` segment from the path. -/
def blobNameFor (container path : List Char) : List Char :=
  if !container.isEmpty then
    if (container ++ ['/']).isPrefixOf path then path.drop (container.length + 1)
    else if !path.isEmpty then path
    else []
  else path

/-- src/app.py `resolve_reference_href`: strip the href; pass through
absolute URLs and internal download routes; otherwise normalise the path
(backslashes to slashes, percent-decode, strip leading slashes), pick the
container and the blob name, and ask `generate_blob_sas_url`; a missing blob
(`FileNotFoundError`) yields `none`; finally re-attach the original query and
fragment. -/
def resolve_reference_href (cfg : AppConfig) (store : BlobStore)
    (raw_href : List Char) : Option (List Char) :=
  let href := pyStrip raw_href
  if href.isEmpty then none
  else
    let split_href := urlsplit href
    if !split_href.scheme.isEmpty || !split_href.netloc.isEmpty then some href
    else if ("/api/download/".toList).isPrefixOf href
        || ("api/download/".toList).isPrefixOf href then some href
    else
      let path := (unquote (replaceAll ['\\'] ['/'] split_href.path)).dropWhile
        (fun c => c == '/')
      let query := if !split_href.query.isEmpty then '?' :: split_href.query else []
      let fragment :=
        if !split_href.fragment.isEmpty then '#' :: split_href.fragment else []
      let container := containerFor cfg path
      let blob_name := blobNameFor container path
      if blob_name.isEmpty then none
      else
        match generate_blob_sas_url cfg store container blob_name with
        | Except.error _ => none
        | Except.ok sas_url =>
          if !sas_url.isEmpty && (!query.isEmpty || !fragment.isEmpty) then
            let separator := if sas_url.contains '?' then ['&'] else ['?']
            some (sas_url ++ separator ++ (query.dropWhile (fun c => c == '?'))
              ++ fragment)
          else some sas_url

/-- src/app.py `replace_source_reference_links`: rewrite every reference
match in `text`, returning the rewritten text and the resolved URLs that the
replacer added to the `references` set, in match order. -/
def replace_source_reference_links (cfg : AppConfig) (store : BlobStore)
    (text : List Char) : List Char × List (List Char) :=
  subRefsAux (resolve_reference_href cfg store) text.length text

/-- The HTML-error heuristic of src/app.py lines 303-308, applied to the
stripped, lowercased chunk (`normalized_preview`). -/
def looksLikeHtml (preview : List Char) : Bool :=
  ("<!doctype".toList).isPrefixOf preview || ("<html".toList).isPrefixOf preview
    || hasSub ("<html".toList) (preview.take 120)
    || hasSub ("azure container apps".toList) preview

/-- The per-turn mutable state of the chunk-processing loop in src/app.py
`handle_message`: `conversation_id`, `buffer`, `full_text`, `references`,
`first_content_seen`, whether the loop has broken out on the terminate token
(after which remaining chunks are only drained), and the sequence of strings
passed to `response_msg.stream_token` inside the loop. -/
structure DState where
  conversationId : List Char
  buffer : List Char
  fullText : List Char
  references : List (List Char)
  firstContentSeen : Bool
  terminated : Bool
  emitted : List (List Char)
deriving Repr, DecidableEq

/-- Loop state on entry to `handle_message`'s streaming loop. -/
def initState (sessionConversationId : List Char) : DState :=
  ⟨sessionConversationId, [], [], [], false, false, []⟩

/-- `references.update(chunk_refs)`: set union keeping first-insertion
order. -/
def addRefs (refs newRefs : List (List Char)) : List (List Char) :=
  newRefs.foldl (fun acc r => if acc.contains r then acc else acc ++ [r]) refs

/-- One iteration of the `async for chunk in generator` loop of
src/app.py `handle_message` (lines 291-355).  A terminated state models the
drain loop (line 343): the chunk is read and discarded.  Otherwise: extract
and update the conversation id, normalise `\n` escapes, raise (the
`Except.error`, carrying the state at the raise) when the first content looks
like an HTML error page, rewrite references, append to `buffer` and
`full_text`, then either break on a found terminate token (streaming the text
before it) or flush the safe part of the buffer.  In the token-not-found
branch the source's conditional (line 348) recomputes `token_index != -1`,
which is false there — the withholding arithmetic
`len(buffer) - (len(TERMINATE_TOKEN) - 1)` on line 349 is unreachable — so
the flush length is the whole buffer length. -/
def step (cfg : AppConfig) (store : BlobStore) (st : DState) (chunk : List Char) :
    Except DState DState :=
  if st.terminated then Except.ok st
  else
    let ex := extract_conversation_id_from_chunk chunk
    let conversationId :=
      match ex.1 with
      | some extractedId => extractedId
      | none => st.conversationId
    let cleaned := replaceAll ['\\', 'n'] ['\n'] ex.2
    let preview := lowerStr (pyStrip cleaned)
    if !st.firstContentSeen && !preview.isEmpty && looksLikeHtml preview then
      Except.error { st with conversationId := conversationId }
    else
      let firstContentSeen := st.firstContentSeen || !preview.isEmpty
      let rr := replace_source_reference_links cfg store cleaned
      let references := addRefs st.references rr.2
      let buffer := st.buffer ++ rr.1
      let fullText := st.fullText ++ rr.1
      match strFind TERMINATE_TOKEN buffer with
      | some token_index =>
        Except.ok { conversationId := conversationId, buffer := buffer,
                    fullText := fullText, references := references,
                    firstContentSeen := firstContentSeen, terminated := true,
                    emitted :=
                      if 0 < token_index then st.emitted ++ [buffer.take token_index]
                      else st.emitted }
      | none =>
        let safe_flush_length := buffer.length
        if 0 < safe_flush_length then
          Except.ok { conversationId := conversationId,
                      buffer := buffer.drop safe_flush_length, fullText := fullText,
                      references := references, firstContentSeen := firstContentSeen,
                      terminated := false,
                      emitted := st.emitted ++ [buffer.take safe_flush_length] }
        else
          Except.ok { conversationId := conversationId, buffer := buffer,
                      fullText := fullText, references := references,
                      firstContentSeen := firstContentSeen, terminated := false,
                      emitted := st.emitted }

/-- Fold `step` over the chunk sequence, stopping at the first raise. -/
def runDecoder (cfg : AppConfig) (store : BlobStore) :
    DState → List (List Char) → Except DState DState
  | st, [] => Except.ok st
  | st, c :: cs =>
    match step cfg store st c with
    | Except.ok st2 => runDecoder cfg store st2 cs
    | Except.error e => Except.error e

/-- The fixed user-safe error text of src/app.py lines 358-362. -/
def userErrorMessage (messageId : List Char) : List Char :=
  ("We hit a technical issue while processing your request. "
    ++ "Please contact the application support team and share reference ").toList
    ++ messageId ++ ['.']

/-- Finalisation of src/app.py lines 391-393: strip every terminate-token
occurrence from the accumulated text and run the reference rewriter once more
over it. -/
def finalizeText (cfg : AppConfig) (store : BlobStore) (fullText : List Char) :
    List Char × List (List Char) :=
  replace_source_reference_links cfg store (replaceAll TERMINATE_TOKEN [] fullText)

/-- Outcome of one turn of `handle_message`: the conversation id stored back
into the session, the final message content, the streamed increments, the
aggregated reference set and the accumulated `full_text`. -/
structure TurnResult where
  conversationId : List Char
  finalText : List Char
  emitted : List (List Char)
  references : List (List Char)
  fullText : List Char
deriving Repr, DecidableEq

/-- src/app.py `handle_message` for a given chunk sequence: run the streaming
loop; on an in-loop raise replace `full_text` with the fixed user error
message, clear the buffer and stream the error message (lines 357-370); then
finalise (lines 391-395). -/
def handle_message (cfg : AppConfig) (store : BlobStore)
    (sessionConversationId messageId : List Char) (chunks : List (List Char)) :
    TurnResult :=
  match runDecoder cfg store (initState sessionConversationId) chunks with
  | Except.ok st =>
    let fin := finalizeText cfg store st.fullText
    ⟨st.conversationId, fin.1, st.emitted, addRefs st.references fin.2, st.fullText⟩
  | Except.error e =>
    let errText := userErrorMessage messageId
    let fin := finalizeText cfg store errText
    ⟨e.conversationId, fin.1, e.emitted ++ [errText], addRefs e.references fin.2,
     errText⟩

/-- The cleaned form of one chunk as the loop body computes it before the
buffer bookkeeping: conversation-id stripping, `\n` normalisation, reference
rewriting. -/
def cleanChunk (cfg : AppConfig) (store : BlobStore) (chunk : List Char) : List Char :=
  (replace_source_reference_links cfg store
    (replaceAll ['\\', 'n'] ['\n'] (extract_conversation_id_from_chunk chunk).2)).1

/-- The `user.metadata` dictionary of src/app.py `check_authorization`,
restricted to the keys that function reads; `none` models an absent key. -/
structure UserMetadata where
  authorized : Option Bool
  client_principal_id : Option String
  client_principal_name : Option String
  client_group_names : Option (List String)
  access_token : Option String

/-- The dictionary returned by src/app.py `check_authorization`. -/
structure AuthContext where
  authorized : Bool
  client_principal_id : String
  client_principal_name : String
  client_group_names : List String
  access_token : Option String
deriving Repr, DecidableEq

/-- src/app.py `check_authorization` (lines 172-190): with a session user,
read each field from its metadata with the defaults shown there; with no
session user, the fixed anonymous context. -/
def check_authorization (sessionUser : Option UserMetadata) : AuthContext :=
  match sessionUser with
  | some m =>
    ⟨m.authorized.getD true, m.client_principal_id.getD "no-auth",
     m.client_principal_name.getD "anonymous", m.client_group_names.getD [],
     m.access_token⟩
  | none => ⟨true, "no-auth", "anonymous", [], none⟩

/-- The orchestrator HTTP response as the stream client observes it. -/
structure OrchestratorResponse where
  statusCode : Nat
  reasonPhrase : List Char
  errorBody : List Char
  chunks : List (List Char)

/-- The error text raised at src/orchestrator_client.py lines 93-96. -/
def orchestratorErrorMessage (resp : OrchestratorResponse) : List Char :=
  "Error invoking orchestrator (HTTP ".toList ++ (Nat.repr resp.statusCode).toList
    ++ "): ".toList ++ resp.reasonPhrase ++ ". Details: ".toList ++ resp.errorBody

/-- src/orchestrator_client.py `call_orchestrator_stream` (lines 89-99): a
status at or above 400 raises one descriptive error before anything is
yielded; otherwise the non-empty text chunks are yielded in order. -/
def call_orchestrator_stream (resp : OrchestratorResponse) :
    Except (List Char) (List (List Char)) :=
  if 400 ≤ resp.statusCode then Except.error (orchestratorErrorMessage resp)
  else Except.ok (resp.chunks.filter (fun c => !c.isEmpty))

/-- Outcome of `BlobClient.download_blob` as observed by
src/main.py `handle_file_download`: either the blob bytes or the text of the
raised exception. -/
inductive BlobDownloadResult where
  | ok (data : List Char)
  | err (message : List Char)

/-- A plain-text or streaming HTTP response of src/main.py, reduced to body
and status code. -/
structure HttpTextResponse where
  body : List Char
  statusCode : Nat
deriving Repr, DecidableEq

/-- src/main.py `handle_file_download` (lines 52-72): an exception whose text
contains `BlobNotFound` becomes a 404, any other exception a 500; empty
downloaded bytes become a 404; otherwise the bytes are streamed back. -/
def handle_file_download (fetch : List Char → BlobDownloadResult)
    (file_path : List Char) : HttpTextResponse :=
  match fetch file_path with
  | BlobDownloadResult.err m =>
    if hasSub ("BlobNotFound".toList) m then
      ⟨"Blob not found: ".toList ++ m ++ ['.'], 404⟩
    else ⟨"Internal server error: ".toList ++ m ++ ['.'], 500⟩
  | BlobDownloadResult.ok data =>
    if data.isEmpty then ⟨"File not found or empty.".toList, 404⟩
    else ⟨data, 200⟩

/-- src/main.py `download_blob_file` (lines 80-94): normalise the container
path segment by stripping surrounding whitespace and slashes, accept it only
when it equals the configured documents or images container (both read raw
from configuration, possibly absent), else answer 404 `Container not found`;
an accepted empty container name is also rejected by `if not
target_container`. -/
def download_blob_file (documents_container images_container : Option (List Char))
    (fetch : List Char → BlobDownloadResult) (container_name file_path : List Char) :
    HttpTextResponse :=
  let normalized := stripWith (fun c => c == '/') (pyStrip container_name)
  let target_container : Option (List Char) :=
    if documents_container = some normalized then documents_container
    else if images_container = some normalized then images_container
    else none
  match target_container with
  | some c =>
    if c.isEmpty then ⟨"Container not found".toList, 404⟩
    else handle_file_download fetch (c ++ '/' :: file_path)
  | none => ⟨"Container not found".toList, 404⟩

/-! ### Helper lemmas about the string primitives -/

theorem strFind_eq_none_iff {pat s : List Char} :
    strFind pat s = none ↔ ∀ i, pat.isPrefixOf (s.drop i) = false := by
  induction s with
  | nil =>
    cases pat with
    | nil => simp [strFind, List.isPrefixOf]
    | cons p ps => simp [strFind, List.isPrefixOf]
  | cons c rest ih =>
    by_cases hp : pat.isPrefixOf (c :: rest) = true
    · constructor
      · intro h
        simp [strFind, hp] at h
      · intro h
        have := h 0
        simp [hp] at this
    · have hp2 : pat.isPrefixOf (c :: rest) = false := by
        rwa [Bool.not_eq_true] at hp
      constructor
      · intro h i
        cases i with
        | zero => simpa using hp2
        | succ j =>
          have hmap : strFind pat rest = none := by
            simp [strFind, hp2] at h
            exact h
          exact (ih.mp hmap) j
      · intro h
        have hrest : strFind pat rest = none := by
          apply ih.mpr
          intro i
          simpa using h (i + 1)
        simp [strFind, hp2, hrest]

theorem isPrefixOf_append_of_isPrefixOf {pat l t : List Char}
    (h : pat.isPrefixOf l = true) : pat.isPrefixOf (l ++ t) = true := by
  rw [List.isPrefixOf_iff_prefix] at h ⊢
  exact h.trans (List.prefix_append l t)

theorem strFind_append_none_left {pat A B : List Char}
    (h : strFind pat (A ++ B) = none) : strFind pat A = none := by
  rw [strFind_eq_none_iff] at h ⊢
  intro i
  by_cases hi : i ≤ A.length
  · have hAB := h i
    rw [List.drop_append_eq_append_drop] at hAB
    by_contra hc
    have hc2 : pat.isPrefixOf (A.drop i) = true := by
      simpa using hc
    rw [isPrefixOf_append_of_isPrefixOf hc2] at hAB
    cases hAB
  · rw [List.drop_eq_nil_of_le (by omega)]
    cases pat with
    | nil =>
      have h0 := h 0
      simp [List.isPrefixOf] at h0
    | cons p ps => simp [List.isPrefixOf]

theorem strFind_append_none_right {pat A B : List Char}
    (h : strFind pat (A ++ B) = none) : strFind pat B = none := by
  rw [strFind_eq_none_iff] at h ⊢
  intro i
  have hAB := h (A.length + i)
  rw [List.drop_append_eq_append_drop,
    List.drop_eq_nil_of_le (show A.length ≤ A.length + i by omega)] at hAB
  simpa using hAB

theorem strFind_single_none {a : Char} {s : List Char}
    (h : ∀ c ∈ s, c ≠ a) : strFind [a] s = none := by
  rw [strFind_eq_none_iff]
  intro i
  cases hd : s.drop i with
  | nil => simp [List.isPrefixOf]
  | cons c t =>
    have hmem : c ∈ s := by
      have : c ∈ s.drop i := by simp [hd]
      exact List.mem_of_mem_drop this
    have : (a == c) = false := by
      simp [h c hmem]
      intro hac
      exact (h c hmem) hac.symm
    simp [List.isPrefixOf, this]

theorem replaceAllAux_no_occur {pat rep : List Char} :
    ∀ (fuel : Nat) (s : List Char), strFind pat s = none →
      replaceAllAux pat rep fuel s = s := by
  intro fuel
  induction fuel with
  | zero =>
    intro s h
    cases s <;> simp [replaceAllAux]
  | succ f ih =>
    intro s h
    cases s with
    | nil => simp [replaceAllAux]
    | cons c rest =>
      have hpre : pat.isPrefixOf (c :: rest) = false := by
        rw [strFind_eq_none_iff] at h
        simpa using h 0
      have hrest : strFind pat rest = none := by
        rw [strFind_eq_none_iff] at h ⊢
        intro i
        simpa using h (i + 1)
      simp [replaceAllAux, hpre, ih rest hrest]

theorem replaceAll_no_occur {pat rep s : List Char} (h : strFind pat s = none) :
    replaceAll pat rep s = s :=
  replaceAllAux_no_occur s.length s h

theorem dropWhile_of_all_false {p : Char → Bool} {s : List Char}
    (h : ∀ c ∈ s, p c = false) : s.dropWhile p = s := by
  cases s with
  | nil => rfl
  | cons c rest => simp [List.dropWhile_cons, h c (by simp)]

theorem pyStrip_of_no_space {s : List Char}
    (h : ∀ c ∈ s, isSpaceChar c = false) : pyStrip s = s := by
  unfold pyStrip stripWith
  rw [dropWhile_of_all_false h,
    dropWhile_of_all_false (fun c hc => h c (by simpa using hc)), List.reverse_reverse]

theorem takeWhile_all_cons_false {p : Char → Bool} {l : List Char} {x : Char}
    {t : List Char} (hl : ∀ c ∈ l, p c = true) (hx : p x = false) :
    (l ++ x :: t).takeWhile p = l := by
  induction l with
  | nil => simp [List.takeWhile_cons, hx]
  | cons a l ih =>
    have ha : p a = true := hl a (by simp)
    simp only [List.cons_append, List.takeWhile_cons, ha, if_true]
    rw [ih (fun c hc => hl c (by simp [hc]))]

theorem dropWhile_all_cons_false {p : Char → Bool} {l : List Char} {x : Char}
    {t : List Char} (hl : ∀ c ∈ l, p c = true) (hx : p x = false) :
    (l ++ x :: t).dropWhile p = x :: t := by
  induction l with
  | nil => simp [List.dropWhile_cons, hx]
  | cons a l ih =>
    have ha : p a = true := hl a (by simp)
    simp only [List.cons_append, List.dropWhile_cons, ha, if_true]
    exact ih (fun c hc => hl c (by simp [hc]))

/-! ### Helper lemmas about the reference scanner -/

theorem tryMatchRef_cons_ne {c : Char} {t : List Char} (h : c ≠ '[') :
    tryMatchRef (c :: t) = none := by
  simp [tryMatchRef, h]

theorem tryMatchRef_matches {display target post : List Char}
    (hd : display ≠ []) (hd2 : ∀ c ∈ display, c ≠ ']')
    (ht : ∀ c ∈ target, c ≠ ')') (hext : extensionOk target = true) :
    tryMatchRef ('[' :: display ++ ']' :: '(' :: target ++ ')' :: post)
      = some (display, target, post) := by
  have hdisp : ∀ c ∈ display, (fun x => x != ']') c = true := by
    intro c hc
    simpa using hd2 c hc
  have htar : ∀ c ∈ target, (fun x => x != ')') c = true := by
    intro c hc
    simpa using ht c hc
  have h3 : (target ++ ')' :: post).takeWhile (fun x => x != ')') = target :=
    takeWhile_all_cons_false (x := ')') (t := post) htar (by simp)
  have h4 : (target ++ ')' :: post).dropWhile (fun x => x != ')') = ')' :: post :=
    dropWhile_all_cons_false (x := ')') (t := post) htar (by simp)
  have h1 : (display ++ ']' :: ('(' :: (target ++ ')' :: post))).takeWhile
      (fun x => x != ']') = display :=
    takeWhile_all_cons_false (x := ']') (t := '(' :: (target ++ ')' :: post)) hdisp
      (by simp)
  have h2 : (display ++ ']' :: ('(' :: (target ++ ')' :: post))).dropWhile
      (fun x => x != ']') = ']' :: ('(' :: (target ++ ')' :: post)) :=
    dropWhile_all_cons_false (x := ']') (t := '(' :: (target ++ ')' :: post)) hdisp
      (by simp)
  have hshape : '[' :: display ++ ']' :: '(' :: target ++ ')' :: post
      = '[' :: (display ++ ']' :: ('(' :: (target ++ ')' :: post))) := by
    simp
  rw [hshape, tryMatchRef.eq_def]
  simp only [h1, h2]
  simp [List.isEmpty_iff, hd, h3, h4, hext]

theorem tryMatchRef_inv {s display target afterMatch : List Char}
    (h : tryMatchRef s = some (display, target, afterMatch)) :
    s = '[' :: display ++ ']' :: '(' :: target ++ ')' :: afterMatch := by
  cases s with
  | nil => simp [tryMatchRef] at h
  | cons c afterOpen =>
    by_cases hc : c = '['
    · rw [tryMatchRef, if_pos hc] at h
      by_cases hemp : (afterOpen.takeWhile (fun x => x != ']')).isEmpty
      · rw [if_pos hemp] at h
        cases h
      · rw [if_neg hemp] at h
        have hsplit1 : afterOpen.takeWhile (fun x => x != ']')
            ++ afterOpen.dropWhile (fun x => x != ']') = afterOpen :=
          List.takeWhile_append_dropWhile _ _
        cases hr2 : afterOpen.dropWhile (fun x => x != ']') with
        | nil => rw [hr2] at h; cases h
        | cons x1 r2tail =>
          cases r2tail with
          | nil =>
            rw [hr2] at h
            simp at h
          | cons x2 afterParen =>
            rw [hr2] at h
            simp only [] at h
            by_cases hx : x1 = ']' ∧ x2 = '('
            · rw [if_pos hx] at h
              have hsplit2 : afterParen.takeWhile (fun x => x != ')')
                  ++ afterParen.dropWhile (fun x => x != ')') = afterParen :=
                List.takeWhile_append_dropWhile _ _
              cases hr4 : afterParen.dropWhile (fun x => x != ')') with
              | nil => rw [hr4] at h; cases h
              | cons y afterM =>
                rw [hr4] at h
                simp only [] at h
                by_cases hy : y = ')' ∧ extensionOk (afterParen.takeWhile
                    (fun x => x != ')')) = true
                · rw [if_pos hy] at h
                  simp only [Option.some_inj, Prod.mk.injEq] at h
                  obtain ⟨hde, hte, hae⟩ := h
                  rw [hc]
                  have hopen : afterOpen
                      = display ++ ']' :: '(' :: target ++ ')' :: afterMatch := by
                    rw [← hsplit1, hr2, hde, hx.1, hx.2, ← hsplit2, hr4, hte, hy.1,
                      hae]
                    simp
                  rw [hopen]
                  simp
                · rw [if_neg hy] at h
                  cases h
            · rw [if_neg hx] at h
              cases h
    · rw [tryMatchRef_cons_ne hc] at h
      cases h

theorem tryMatchRef_some_length {s display target afterMatch : List Char}
    (h : tryMatchRef s = some (display, target, afterMatch)) :
    afterMatch.length < s.length := by
  have hs := tryMatchRef_inv h
  rw [hs]
  simp [List.length_append]
  omega

theorem subRefsAux_fuelIrrel (r : List Char → Option (List Char)) :
    ∀ (f1 f2 : Nat) (s : List Char), s.length ≤ f1 → s.length ≤ f2 →
      subRefsAux r f1 s = subRefsAux r f2 s := by
  intro f1
  induction f1 with
  | zero =>
    intro f2 s h1 h2
    have hs : s = [] := List.length_eq_zero.mp (Nat.le_zero.mp h1)
    subst hs
    cases f2 <;> simp [subRefsAux]
  | succ f ih =>
    intro f2 s h1 h2
    cases s with
    | nil => cases f2 <;> simp [subRefsAux]
    | cons c rest =>
      cases f2 with
      | zero => simp at h2
      | succ f2b =>
        cases hm : tryMatchRef (c :: rest) with
        | none =>
          have h1r : rest.length ≤ f := by
            simp only [List.length_cons] at h1
            omega
          have h2r : rest.length ≤ f2b := by
            simp only [List.length_cons] at h2
            omega
          simp only [subRefsAux, hm]
          rw [ih f2b rest h1r h2r]
        | some triple =>
          obtain ⟨d, t, a⟩ := triple
          have hlen := tryMatchRef_some_length hm
          have h1r : a.length ≤ f := by
            simp only [List.length_cons] at h1 hlen
            omega
          have h2r : a.length ≤ f2b := by
            simp only [List.length_cons] at h2 hlen
            omega
          simp only [subRefsAux, hm]
          rw [ih f2b a h1r h2r]

theorem subRefs_nil (cfg : AppConfig) (store : BlobStore) :
    replace_source_reference_links cfg store [] = ([], []) := rfl

theorem subRefs_cons_nomatch (cfg : AppConfig) (store : BlobStore) {c : Char}
    {rest : List Char} (h : tryMatchRef (c :: rest) = none) :
    replace_source_reference_links cfg store (c :: rest)
      = (c :: (replace_source_reference_links cfg store rest).1,
         (replace_source_reference_links cfg store rest).2) := by
  unfold replace_source_reference_links
  simp only [List.length_cons, subRefsAux, h]

theorem subRefs_cons_match (cfg : AppConfig) (store : BlobStore)
    {s display target afterMatch : List Char}
    (h : tryMatchRef s = some (display, target, afterMatch)) :
    replace_source_reference_links cfg store s =
      (match resolve_reference_href cfg store target with
       | some resolved =>
         ('[' :: display ++ ']' :: '(' :: resolved ++ ')'
            :: (replace_source_reference_links cfg store afterMatch).1,
          resolved :: (replace_source_reference_links cfg store afterMatch).2)
       | none => replace_source_reference_links cfg store afterMatch) := by
  unfold replace_source_reference_links
  cases s with
  | nil => simp [tryMatchRef] at h
  | cons c rest =>
    have hlen := tryMatchRef_some_length h
    simp only [List.length_cons] at hlen
    have hfuel : subRefsAux (resolve_reference_href cfg store) rest.length afterMatch
        = subRefsAux (resolve_reference_href cfg store) afterMatch.length afterMatch :=
      subRefsAux_fuelIrrel _ rest.length afterMatch.length afterMatch (by omega)
        (Nat.le_refl _)
    simp only [List.length_cons, subRefsAux, h, hfuel]

theorem subRefs_prepend (cfg : AppConfig) (store : BlobStore) {pre s : List Char}
    (h : ∀ c ∈ pre, c ≠ '[') :
    replace_source_reference_links cfg store (pre ++ s)
      = (pre ++ (replace_source_reference_links cfg store s).1,
         (replace_source_reference_links cfg store s).2) := by
  induction pre with
  | nil => simp
  | cons c pre ih =>
    have hc : c ≠ '[' := h c (by simp)
    rw [List.cons_append, subRefs_cons_nomatch cfg store (tryMatchRef_cons_ne hc),
      ih (fun x hx => h x (by simp [hx]))]
    simp

/-! ### Helper lemmas about the stream decoder -/

/-- Project the state out of a step outcome, whether it returned or raised. -/
def stateOf : Except DState DState → DState
  | Except.ok st => st
  | Except.error st => st

theorem step_of_terminated {cfg : AppConfig} {store : BlobStore} {st : DState}
    {chunk : List Char} (h : st.terminated = true) :
    step cfg store st chunk = Except.ok st := by
  unfold step
  rw [if_pos h]

theorem runDecoder_of_terminated (cfg : AppConfig) (store : BlobStore) {st : DState}
    (h : st.terminated = true) :
    ∀ cs, runDecoder cfg store st cs = Except.ok st := by
  intro cs
  induction cs with
  | nil => rfl
  | cons c cs ih =>
    unfold runDecoder
    rw [step_of_terminated h]
    exact ih

theorem step_ok_cases {cfg : AppConfig} {store : BlobStore} {st st2 : DState}
    {chunk : List Char} (h : step cfg store st chunk = Except.ok st2)
    (hterm : st.terminated = false) (hbuf : st.buffer = []) :
    st2.fullText = st.fullText ++ cleanChunk cfg store chunk ∧
    ((st2.terminated = false ∧ st2.buffer = []) ∨
     (st2.terminated = true ∧ st2.buffer = cleanChunk cfg store chunk ∧
       strFind TERMINATE_TOKEN (cleanChunk cfg store chunk) ≠ none)) := by
  unfold step at h
  rw [if_neg (by simp [hterm])] at h
  simp only [] at h
  split at h
  · cases h
  · split at h
    · obtain rfl : _ = st2 := Except.ok.inj h
      refine ⟨by simp [cleanChunk, replace_source_reference_links], Or.inr ?_⟩
      refine ⟨rfl, by simp [hbuf, cleanChunk, replace_source_reference_links], ?_⟩
      intro hnone
      rename_i heq
      rw [hbuf] at heq
      simp only [List.nil_append] at heq
      rw [show (replace_source_reference_links cfg store
        (replaceAll ['\\', 'n'] ['\n']
          (extract_conversation_id_from_chunk chunk).2)).1
        = cleanChunk cfg store chunk from rfl] at heq
      rw [heq] at hnone
      cases hnone
    · split at h
      · obtain rfl : _ = st2 := Except.ok.inj h
        refine ⟨by simp [cleanChunk, replace_source_reference_links], Or.inl ?_⟩
        exact ⟨rfl, by simp⟩
      · obtain rfl : _ = st2 := Except.ok.inj h
        rename_i hflush
        have hempty : (replace_source_reference_links cfg store
            (replaceAll ['\\', 'n'] ['\n']
              (extract_conversation_id_from_chunk chunk).2)).1 = [] := by
          rw [hbuf] at hflush
          simp only [List.nil_append, List.length_nil, Nat.not_lt,
            Nat.le_zero] at hflush
          exact List.length_eq_zero.mp hflush
        constructor
        · rfl
        · left
          constructor
          · rfl
          · show st.buffer ++ _ = []
            rw [hbuf]
            exact hempty

theorem runDecoder_inv (cfg : AppConfig) (store : BlobStore) :
    ∀ (chunks : List (List Char)) (st0 st : DState),
      st0.terminated = false → st0.buffer = [] →
      runDecoder cfg store st0 chunks = Except.ok st →
      ∃ n, n ≤ chunks.length ∧
        st.fullText
          = st0.fullText ++ ((chunks.take n).map (cleanChunk cfg store)).flatten ∧
        (st.terminated = false → st.buffer = [] ∧ n = chunks.length) ∧
        st.buffer <:+ st.fullText := by
  intro chunks
  induction chunks with
  | nil =>
    intro st0 st h1 h2 hrun
    obtain rfl : st0 = st := Except.ok.inj hrun
    refine ⟨0, Nat.le_refl 0, by simp, fun _ => ⟨h2, rfl⟩, ?_⟩
    rw [h2]
    exact List.nil_suffix
  | cons c cs ih =>
    intro st0 st h1 h2 hrun
    unfold runDecoder at hrun
    cases hstep : step cfg store st0 c with
    | error e =>
      rw [hstep] at hrun
      cases hrun
    | ok st1 =>
      rw [hstep] at hrun
      simp only [] at hrun
      obtain ⟨hfull, hcases⟩ := step_ok_cases hstep h1 h2
      rcases hcases with ⟨ht1, hb1⟩ | ⟨ht1, hb1, _⟩
      · obtain ⟨n, hn, hft, hres, hsuf⟩ := ih st1 st ht1 hb1 hrun
        refine ⟨n + 1, by simpa using hn, ?_, ?_, hsuf⟩
        · rw [hft, hfull]
          simp [List.append_assoc]
        · intro hterm
          obtain ⟨hbe, hne⟩ := hres hterm
          exact ⟨hbe, by simp [hne]⟩
      · have hdrain := runDecoder_of_terminated cfg store ht1 cs
        rw [hdrain] at hrun
        obtain rfl : st1 = st := Except.ok.inj hrun
        refine ⟨1, by simp, ?_, ?_, ?_⟩
        · rw [hfull]
          simp
        · intro hterm
          rw [hterm] at ht1
          cases ht1
        · rw [hfull, hb1]
          exact List.suffix_append _ _

theorem runDecoder_no_token (cfg : AppConfig) (store : BlobStore) :
    ∀ (chunks : List (List Char)) (st0 st : DState),
      st0.terminated = false → st0.buffer = [] →
      strFind TERMINATE_TOKEN ((chunks.map (cleanChunk cfg store)).flatten) = none →
      runDecoder cfg store st0 chunks = Except.ok st →
      st.terminated = false ∧ st.buffer = [] ∧
      st.fullText = st0.fullText ++ ((chunks.map (cleanChunk cfg store)).flatten) := by
  intro chunks
  induction chunks with
  | nil =>
    intro st0 st h1 h2 hno hrun
    obtain rfl : st0 = st := Except.ok.inj hrun
    exact ⟨h1, h2, by simp⟩
  | cons c cs ih =>
    intro st0 st h1 h2 hno hrun
    simp only [List.map_cons, List.flatten_cons] at hno
    have hnoc := strFind_append_none_left hno
    have hnocs := strFind_append_none_right hno
    unfold runDecoder at hrun
    cases hstep : step cfg store st0 c with
    | error e =>
      rw [hstep] at hrun
      cases hrun
    | ok st1 =>
      rw [hstep] at hrun
      simp only [] at hrun
      obtain ⟨hfull, hcases⟩ := step_ok_cases hstep h1 h2
      rcases hcases with ⟨ht1, hb1⟩ | ⟨_, _, hfind⟩
      · obtain ⟨ht, hb, hft⟩ := ih st1 st ht1 hb1 hnocs hrun
        refine ⟨ht, hb, ?_⟩
        rw [hft, hfull]
        simp [List.append_assoc]
      · exact absurd hnoc hfind

theorem step_terminating {cfg : AppConfig} {store : BlobStore} {st st2 : DState}
    {chunk : List Char} (h : step cfg store st chunk = Except.ok st2)
    (hterm : st.terminated = false) (hterm2 : st2.terminated = true) :
    ∃ idx, strFind TERMINATE_TOKEN st2.buffer = some idx ∧
      st2.emitted = (if 0 < idx then st.emitted ++ [st2.buffer.take idx]
        else st.emitted) ∧
      st2.fullText = st.fullText ++ cleanChunk cfg store chunk ∧
      st2.buffer = st.buffer ++ cleanChunk cfg store chunk := by
  unfold step at h
  rw [if_neg (by simp [hterm])] at h
  simp only [] at h
  split at h
  · cases h
  · split at h
    · rename_i token_index heq
      obtain rfl : _ = st2 := Except.ok.inj h
      exact ⟨token_index, heq, rfl, rfl, rfl⟩
    · split at h
      · obtain rfl : _ = st2 := Except.ok.inj h
        cases hterm2
      · obtain rfl : _ = st2 := Except.ok.inj h
        cases hterm2

theorem step_conv {cfg : AppConfig} {store : BlobStore} {st : DState}
    {chunk uuid rest : List Char}
    (hex : extract_conversation_id_from_chunk chunk = (some uuid, rest))
    (hterm : st.terminated = false) :
    (stateOf (step cfg store st chunk)).conversationId = uuid ∧
    (∀ st2, step cfg store st chunk = Except.ok st2 →
      st2.fullText = st.fullText
        ++ (replace_source_reference_links cfg store
             (replaceAll ['\\', 'n'] ['\n'] rest)).1) := by
  unfold step
  rw [if_neg (by simp [hterm]), hex]
  simp only []
  split
  · exact ⟨rfl, fun st2 hst2 => by cases hst2⟩
  · split
    · refine ⟨rfl, fun st2 hst2 => ?_⟩
      obtain rfl : _ = st2 := Except.ok.inj hst2
      rfl
    · split
      · refine ⟨rfl, fun st2 hst2 => ?_⟩
        obtain rfl : _ = st2 := Except.ok.inj hst2
        rfl
      · refine ⟨rfl, fun st2 hst2 => ?_⟩
        obtain rfl : _ = st2 := Except.ok.inj hst2
        rfl

/-! ### Helper lemmas about the reference resolver on plain relative paths -/

/-- A plain relative file path: non-empty, printable ASCII-range characters
with none of the url-splitting or path-normalising metacharacters.  Every
href exercised by the decisive scenarios has this shape. -/
def isSimpleRelPath (p : List Char) : Bool :=
  !p.isEmpty && p.all (fun c => 32 < c.toNat && c != ':' && c != '?' && c != '#'
    && c != '%' && c != '/' && c != '\\' && c != ')')

theorem simpleRel_facts {p : List Char} (h : isSimpleRelPath p = true) :
    p ≠ [] ∧ ∀ c ∈ p, 32 < c.toNat ∧ c ≠ ':' ∧ c ≠ '?' ∧ c ≠ '#' ∧ c ≠ '%'
      ∧ c ≠ '/' ∧ c ≠ '\\' ∧ c ≠ ')' := by
  unfold isSimpleRelPath at h
  rw [Bool.and_eq_true, List.all_eq_true] at h
  refine ⟨by simpa [List.isEmpty_iff] using h.1, fun c hc => ?_⟩
  have := h.2 c hc
  simp only [Bool.and_eq_true, bne_iff_ne, decide_eq_true_eq] at this
  tauto

theorem unquote_no_percent : ∀ {s : List Char}, (∀ c ∈ s, c ≠ '%') →
    unquote s = s := by
  intro s
  induction s with
  | nil => intro _; rfl
  | cons c rest ih =>
    intro h
    have hc : c ≠ '%' := h c (by simp)
    have hrest := ih (fun x hx => h x (by simp [hx]))
    rw [unquote.eq_def]
    split <;> simp_all [List.cons.injEq]

theorem contains_eq_false_of_all_ne {a : Char} {l : List Char}
    (h : ∀ c ∈ l, c ≠ a) : l.contains a = false := by
  induction l with
  | nil => rfl
  | cons c rest ih =>
    have hc : (a == c) = false := by
      have := h c (by simp)
      simp only [beq_eq_false_iff_ne, ne_eq]
      intro hac
      exact this hac.symm
    simp only [List.contains_cons, hc, Bool.false_or]
    exact ih (fun x hx => h x (by simp [hx]))

theorem urlsplit_simple {p : List Char} (h : isSimpleRelPath p = true) :
    urlsplit p = ⟨[], [], p, [], []⟩ := by
  obtain ⟨hne, hall⟩ := simpleRel_facts h
  have hdrop : p.dropWhile c0ControlOrSpace = p := by
    apply dropWhile_of_all_false
    intro c hc
    have h32 := (hall c hc).1
    simp only [c0ControlOrSpace, decide_eq_false_iff_not]
    omega
  have hfilter : removeTabsAndNewlines p = p := by
    unfold removeTabsAndNewlines
    rw [List.filter_eq_self]
    intro c hc
    have h32 := (hall c hc).1
    simp only [Bool.and_eq_true, bne_iff_ne, ne_eq]
    refine ⟨⟨?_, ?_⟩, ?_⟩ <;> intro hh <;> rw [hh] at h32 <;>
      exact absurd h32 (by decide)
  have hfind : p.findIdx? (fun c => c == ':') = none := by
    rw [List.findIdx?_eq_none_iff]
    intro c hc
    have := (hall c hc).2.1
    simp only [beq_eq_false_iff_ne, ne_eq]
    exact this
  have hnoslash : ∀ c ∈ p, c ≠ '/' := fun c hc => (hall c hc).2.2.2.2.2.1
  have hhash : p.contains '#' = false :=
    contains_eq_false_of_all_ne (fun c hc => (hall c hc).2.2.2.1)
  have hquest : p.contains '?' = false :=
    contains_eq_false_of_all_ne (fun c hc => (hall c hc).2.2.1)
  have hslash : p.take 2 ≠ ['/', '/'] := by
    intro htake
    have : '/' ∈ p.take 2 := by rw [htake]; simp
    exact hnoslash '/' (List.take_subset 2 p this) rfl
  have hsplith : splitOnceAt '#' p = (p, none) := by
    unfold splitOnceAt
    rw [if_neg (by rw [hhash]; simp)]
  have hsplitq : splitOnceAt '?' p = (p, none) := by
    unfold splitOnceAt
    rw [if_neg (by rw [hquest]; simp)]
  unfold urlsplit
  simp only []
  rw [hdrop, hfilter, hfind]
  simp only [if_neg hslash, hsplith, hsplitq]

theorem isSpaceChar_le32 {c : Char} (h : isSpaceChar c = true) : c.toNat ≤ 32 := by
  unfold isSpaceChar at h
  simp only [Bool.or_eq_true, decide_eq_true_eq] at h
  rcases h with ((((h | h) | h) | h) | h) | h <;> rw [h] <;> decide

theorem resolve_simple (cfg : AppConfig) (store : BlobStore) {p : List Char}
    (h : isSimpleRelPath p = true) :
    resolve_reference_href cfg store p =
      (if (blobNameFor (containerFor cfg p) p).isEmpty then none
       else
         match generate_blob_sas_url cfg store (containerFor cfg p)
             (blobNameFor (containerFor cfg p) p) with
         | Except.error _ => none
         | Except.ok sas_url => some sas_url) := by
  obtain ⟨hne, hall⟩ := simpleRel_facts h
  have hnospace : ∀ c ∈ p, isSpaceChar c = false := by
    intro c hc
    have h32 := (hall c hc).1
    cases hsp : isSpaceChar c
    · rfl
    · exact absurd (isSpaceChar_le32 hsp) (by omega)
  have hstrip : pyStrip p = p := pyStrip_of_no_space hnospace
  have hempty : p.isEmpty = false := by
    cases p
    · exact absurd rfl hne
    · rfl
  have hsplit := urlsplit_simple h
  have hapi1 : ("/api/download/".toList).isPrefixOf p = false := by
    cases hp : ("/api/download/".toList).isPrefixOf p
    · rfl
    · rw [List.isPrefixOf_iff_prefix] at hp
      obtain ⟨t, ht⟩ := hp
      have hmem : '/' ∈ ("/api/download/".toList) := by decide
      have : '/' ∈ p := by
        rw [← ht]
        exact List.mem_append_left _ hmem
      exact absurd rfl ((hall '/' this).2.2.2.2.2.1)
  have hapi2 : ("api/download/".toList).isPrefixOf p = false := by
    cases hp : ("api/download/".toList).isPrefixOf p
    · rfl
    · rw [List.isPrefixOf_iff_prefix] at hp
      obtain ⟨t, ht⟩ := hp
      have hmem : '/' ∈ ("api/download/".toList) := by decide
      have : '/' ∈ p := by
        rw [← ht]
        exact List.mem_append_left _ hmem
      exact absurd rfl ((hall '/' this).2.2.2.2.2.1)
  have hrepl : replaceAll ['\\'] ['/'] p = p := by
    apply replaceAll_no_occur
    exact strFind_single_none (fun c hc => (hall c hc).2.2.2.2.2.2.1)
  have hunq : unquote p = p :=
    unquote_no_percent (fun c hc => (hall c hc).2.2.2.2.1)
  have hdropw : p.dropWhile (fun c => c == '/') = p := by
    apply dropWhile_of_all_false
    intro c hc
    simpa using (hall c hc).2.2.2.2.2.1
  unfold resolve_reference_href
  simp only []
  rw [hstrip, hsplit]
  simp only [List.isEmpty_nil, Bool.not_true, Bool.or_self, Bool.false_eq_true,
    if_false, hempty, hapi1, hapi2, Bool.or_false, Bool.false_or]
  rw [hrepl, hunq, hdropw]
  simp only [Bool.not_false, Bool.and_false, Bool.false_eq_true, if_false]

theorem resolve_missing (cfg : AppConfig) (store : BlobStore) {p : List Char}
    (h : isSimpleRelPath p = true)
    (hmiss : store.blobExists (containerFor cfg p)
      (blobNameFor (containerFor cfg p) p) = false) :
    resolve_reference_href cfg store p = none := by
  rw [resolve_simple cfg store h]
  by_cases hbe : (blobNameFor (containerFor cfg p) p).isEmpty
  · rw [if_pos hbe]
  · rw [if_neg hbe]
    unfold generate_blob_sas_url
    rw [hmiss]
    simp

theorem resolve_exists_some (cfg : AppConfig) (store : BlobStore) {p : List Char}
    (h : isSimpleRelPath p = true)
    (hex : store.blobExists (containerFor cfg p)
      (blobNameFor (containerFor cfg p) p) = true)
    (hbn : (blobNameFor (containerFor cfg p) p).isEmpty = false) :
    resolve_reference_href cfg store p
      = some (generate_sas_url store (containerFor cfg p)
          (blobNameFor (containerFor cfg p) p)
          (blobDirectUrl cfg (containerFor cfg p)
            (blobNameFor (containerFor cfg p) p))) := by
  rw [resolve_simple cfg store h, if_neg (by simp [hbn])]
  unfold generate_blob_sas_url
  rw [hex]
  simp

/-! ### Concrete fixtures for witnesses and counterexamples -/

/-- Concrete configuration for the concrete runs. -/
def cfgFixture : AppConfig := ⟨"acct".toList, "documents".toList, "images".toList⟩

/-- Blob oracle: every blob exists and signing succeeds with token `sv=1`. -/
def storeSigning : BlobStore := ⟨fun _ _ => true, fun _ _ => some "sv=1".toList⟩

/-- Blob oracle: no blob exists. -/
def storeEmpty : BlobStore := ⟨fun _ _ => false, fun _ _ => none⟩

/-- Blob oracle: every blob exists but SAS signing is unavailable. -/
def storeNoSigning : BlobStore := ⟨fun _ _ => true, fun _ _ => none⟩

/-- The state reached from `initState []` after the chunk `"a TERMINATEx"`
under `cfgFixture`/`storeEmpty`. -/
def stateAfterTerminate : DState :=
  ⟨[], "a TERMINATEx".toList, "a TERMINATEx".toList, [], true, true,
   ["a ".toList]⟩

/-! ### The claims -/

/-- C1: the claim says that on every sentinel-free process call the decoder
flushes only `len(pendingBuffer) - (L - 1)` characters, withholding the last
`L - 1`, so a sentinel split across two chunk boundaries is detected and never
emitted.  The code does the opposite: evaluating `handle_message` at the
failing input `["xTERMIN", "ATE"]` shows the whole buffer is flushed on each
sentinel-free call, so both halves of the split sentinel reach the render
collaborator (the withhold arithmetic of src/app.py line 349 sits in an
unreachable branch, its guard having already broken out at line 335). -/
theorem claim_C1_split_sentinel_streamed :
    (handle_message cfgFixture storeEmpty [] "m1".toList
        ["xTERMIN".toList, "ATE".toList]).emitted
      = ["xTERMIN".toList, "ATE".toList] ∧
    hasSub TERMINATE_TOKEN
      ((handle_message cfgFixture storeEmpty [] "m1".toList
        ["xTERMIN".toList, "ATE".toList]).emitted).flatten = true := by
  constructor
  · rfl
  · rfl

/-- C2 counterexample: in the spec scenario whose third chunk is
`" TERMINATE trailing junk"`, the finalized message content still contains
`"trailing junk"`, because finalisation only deletes the sentinel literal from
`full_text` (src/app.py line 392) and the text after it in the same chunk was
already accumulated. -/
theorem claim_C2_counterexample :
    hasSub ("trailing junk".toList)
      ((handle_message cfgFixture storeSigning [] "m2".toList
        ["abcd1234-abcd-1234-abcd-1234567890ab answer is ".toList,
         "[doc](report.pdf)".toList,
         " TERMINATE trailing junk".toList]).finalText) = true := by
  rfl

/-- C2 (amended): when a process call finds a full sentinel occurrence in the
pending buffer, everything in the buffer before the first occurrence is
streamed and nothing at or after it is ever streamed (remaining chunks are
drained without effect); in the finalized content only the sentinel
occurrences themselves are deleted from the accumulated text, so within-chunk
text after the sentinel is retained. -/
theorem claim_C2_amended (cfg : AppConfig) (store : BlobStore) (st st2 : DState)
    (chunk : List Char) (cs : List (List Char))
    (h : step cfg store st chunk = Except.ok st2)
    (hterm : st.terminated = false) (hterm2 : st2.terminated = true) :
    (∃ idx, strFind TERMINATE_TOKEN st2.buffer = some idx ∧
      st2.emitted = (if 0 < idx then st.emitted ++ [st2.buffer.take idx]
        else st.emitted)) ∧
    runDecoder cfg store st2 cs = Except.ok st2 ∧
    (finalizeText cfg store st2.fullText).1
      = (replace_source_reference_links cfg store
          (replaceAll TERMINATE_TOKEN [] st2.fullText)).1 := by
  obtain ⟨idx, hfind, hemit, _, _⟩ := step_terminating h hterm hterm2
  exact ⟨⟨idx, hfind, hemit⟩, runDecoder_of_terminated cfg store hterm2 cs, rfl⟩

/-- C2 witness: the amended statement evaluated on the single chunk
`"a TERMINATEx"`. -/
theorem claim_C2_amended_witness :
    (∃ idx, strFind TERMINATE_TOKEN stateAfterTerminate.buffer = some idx ∧
      stateAfterTerminate.emitted
        = (if 0 < idx then
            (initState []).emitted ++ [stateAfterTerminate.buffer.take idx]
          else (initState []).emitted)) ∧
    runDecoder cfgFixture storeEmpty stateAfterTerminate [] =
      Except.ok stateAfterTerminate ∧
    (finalizeText cfgFixture storeEmpty stateAfterTerminate.fullText).1
      = (replace_source_reference_links cfgFixture storeEmpty
          (replaceAll TERMINATE_TOKEN [] stateAfterTerminate.fullText)).1 :=
  claim_C2_amended cfgFixture storeEmpty (initState []) stateAfterTerminate
    ("a TERMINATEx".toList) [] rfl rfl rfl

/-- C3 counterexample: the conversation-id pattern is matched and stripped on
every chunk, not only the first, and a later matching chunk overwrites the
recorded id: after the first chunk the id is the `aaaa...` UUID, yet after the
second chunk it is the `bbbb...` UUID. -/
theorem claim_C3_counterexample :
    (handle_message cfgFixture storeEmpty [] "m3".toList
        ["aaaaaaaa-aaaa-aaaa-aaaa-aaaaaaaaaaaa first".toList]).conversationId
      = "aaaaaaaa-aaaa-aaaa-aaaa-aaaaaaaaaaaa".toList ∧
    (handle_message cfgFixture storeEmpty [] "m3".toList
        ["aaaaaaaa-aaaa-aaaa-aaaa-aaaaaaaaaaaa first".toList,
         "bbbbbbbb-bbbb-bbbb-bbbb-bbbbbbbbbbbb second".toList]).conversationId
      = "bbbbbbbb-bbbb-bbbb-bbbb-bbbbbbbbbbbb".toList ∧
    ("aaaaaaaa-aaaa-aaaa-aaaa-aaaaaaaaaaaa".toList : List Char)
      ≠ "bbbbbbbb-bbbb-bbbb-bbbb-bbbbbbbbbbbb".toList := by
  refine ⟨rfl, rfl, ?_⟩
  decide

/-- C3 (amended): on every non-terminated process call whose chunk matches
the conversation-id pattern (optional leading whitespace, a UUID, at least one
whitespace character), the recorded conversation id is set to the matched
UUID — overwriting any previously recorded id — and the matched prefix is
stripped before the chunk text is accumulated. -/
theorem claim_C3_amended (cfg : AppConfig) (store : BlobStore) (st : DState)
    (chunk uuid rest : List Char)
    (hex : extract_conversation_id_from_chunk chunk = (some uuid, rest))
    (hterm : st.terminated = false) :
    (stateOf (step cfg store st chunk)).conversationId = uuid ∧
    (∀ st2, step cfg store st chunk = Except.ok st2 →
      st2.fullText = st.fullText
        ++ (replace_source_reference_links cfg store
             (replaceAll ['\\', 'n'] ['\n'] rest)).1) :=
  step_conv hex hterm

/-- C3 witness: a state that already recorded the `aaaa...` id processes a
chunk starting with the `bbbb...` UUID; the id is overwritten. -/
theorem claim_C3_amended_witness :
    (stateOf (step cfgFixture storeEmpty
        ⟨"aaaaaaaa-aaaa-aaaa-aaaa-aaaaaaaaaaaa".toList, [], [], [], true, false,
         []⟩
        "bbbbbbbb-bbbb-bbbb-bbbb-bbbbbbbbbbbb second".toList)).conversationId
      = "bbbbbbbb-bbbb-bbbb-bbbb-bbbbbbbbbbbb".toList ∧
    (∀ st2, step cfgFixture storeEmpty
        ⟨"aaaaaaaa-aaaa-aaaa-aaaa-aaaaaaaaaaaa".toList, [], [], [], true, false,
         []⟩
        "bbbbbbbb-bbbb-bbbb-bbbb-bbbbbbbbbbbb second".toList = Except.ok st2 →
      st2.fullText = ([] : List Char)
        ++ (replace_source_reference_links cfgFixture storeEmpty
             (replaceAll ['\\', 'n'] ['\n'] "second".toList)).1) :=
  claim_C3_amended cfgFixture storeEmpty
    ⟨"aaaaaaaa-aaaa-aaaa-aaaa-aaaaaaaaaaaa".toList, [], [], [], true, false, []⟩
    ("bbbbbbbb-bbbb-bbbb-bbbb-bbbbbbbbbbbb second".toList)
    ("bbbbbbbb-bbbb-bbbb-bbbb-bbbbbbbbbbbb".toList) ("second".toList) rfl rfl

/-- C4: for a markdown reference whose target is a plain relative path and
whose blob exists, when SAS signing is unavailable the resolver returns the
unsigned direct object URL rather than dropping the reference, and the
rewriter keeps the reference in the output, rewritten to that URL. -/
theorem claim_C4_signing_unavailable_fallback (cfg : AppConfig)
    (store : BlobStore) (pre display target post : List Char)
    (hpre : ∀ c ∈ pre, c ≠ '[')
    (hd : display ≠ []) (hd2 : ∀ c ∈ display, c ≠ ']')
    (hsimple : isSimpleRelPath target = true)
    (hext : extensionOk target = true)
    (hex : store.blobExists (containerFor cfg target)
      (blobNameFor (containerFor cfg target) target) = true)
    (hsas : store.sasToken (containerFor cfg target)
      (blobNameFor (containerFor cfg target) target) = none)
    (hbn : (blobNameFor (containerFor cfg target) target).isEmpty = false) :
    resolve_reference_href cfg store target
      = some (blobDirectUrl cfg (containerFor cfg target)
          (blobNameFor (containerFor cfg target) target)) ∧
    replace_source_reference_links cfg store
        (pre ++ ('[' :: display ++ ']' :: '(' :: target ++ ')' :: post))
      = (pre ++ ('[' :: display ++ ']' :: '(' ::
           blobDirectUrl cfg (containerFor cfg target)
             (blobNameFor (containerFor cfg target) target)
           ++ ')' :: (replace_source_reference_links cfg store post).1),
         blobDirectUrl cfg (containerFor cfg target)
             (blobNameFor (containerFor cfg target) target)
           :: (replace_source_reference_links cfg store post).2) := by
  have ht : ∀ c ∈ target, c ≠ ')' :=
    fun c hc => ((simpleRel_facts hsimple).2 c hc).2.2.2.2.2.2.2
  have hresolve : resolve_reference_href cfg store target
      = some (blobDirectUrl cfg (containerFor cfg target)
          (blobNameFor (containerFor cfg target) target)) := by
    rw [resolve_exists_some cfg store hsimple hex hbn]
    unfold generate_sas_url
    rw [hsas]
  refine ⟨hresolve, ?_⟩
  rw [subRefs_prepend cfg store hpre,
    subRefs_cons_match cfg store (tryMatchRef_matches hd hd2 ht hext), hresolve]

/-- C4 witness: `[doc](report.pdf)` inside surrounding text, with the blob
present and signing unavailable, rewritten to the unsigned direct URL. -/
theorem claim_C4_witness :
    resolve_reference_href cfgFixture storeNoSigning ("report.pdf".toList)
      = some (blobDirectUrl cfgFixture
          (containerFor cfgFixture ("report.pdf".toList))
          (blobNameFor (containerFor cfgFixture ("report.pdf".toList))
            ("report.pdf".toList))) ∧
    replace_source_reference_links cfgFixture storeNoSigning
        ("x ".toList ++ ('[' :: "doc".toList ++ ']' :: '(' :: "report.pdf".toList
          ++ ')' :: " y".toList))
      = ("x ".toList ++ ('[' :: "doc".toList ++ ']' :: '(' ::
           blobDirectUrl cfgFixture
             (containerFor cfgFixture ("report.pdf".toList))
             (blobNameFor (containerFor cfgFixture ("report.pdf".toList))
               ("report.pdf".toList))
           ++ ')' :: (replace_source_reference_links cfgFixture storeNoSigning
               (" y".toList)).1),
         blobDirectUrl cfgFixture
             (containerFor cfgFixture ("report.pdf".toList))
             (blobNameFor (containerFor cfgFixture ("report.pdf".toList))
               ("report.pdf".toList))
           :: (replace_source_reference_links cfgFixture storeNoSigning
               (" y".toList)).2) :=
  claim_C4_signing_unavailable_fallback cfgFixture storeNoSigning ("x ".toList)
    ("doc".toList) ("report.pdf".toList) (" y".toList) (by decide) (by decide)
    (by decide) (by decide) (by decide) rfl rfl rfl

/-- C5 counterexample: the accumulated full text is not the concatenation of
the chunks after conversation-id stripping and newline normalisation alone:
reference rewriting happens before accumulation, so for the single chunk
`"[doc](report.pdf)"` (left unchanged by stripping and normalisation) the
accumulated full text differs from it. -/
theorem claim_C5_counterexample :
    (handle_message cfgFixture storeSigning [] "m5".toList
        ["[doc](report.pdf)".toList]).fullText
      ≠ "[doc](report.pdf)".toList := by
  decide

/-- C5 (amended): through the processing loop the accumulated full text is
the concatenation, in arrival order, of every chunk processed before
termination, each after conversation-id stripping, newline normalisation and
reference rewriting (all chunks when no sentinel is found), and the pending
buffer is always a suffix of the full text. -/
theorem claim_C5_amended (cfg : AppConfig) (store : BlobStore)
    (sessionConversationId : List Char) (chunks : List (List Char)) (st : DState)
    (hrun : runDecoder cfg store (initState sessionConversationId) chunks
      = Except.ok st) :
    (∃ n, n ≤ chunks.length ∧
       st.fullText = ((chunks.take n).map (cleanChunk cfg store)).flatten ∧
       (st.terminated = false → st.buffer = [] ∧ n = chunks.length)) ∧
    st.buffer <:+ st.fullText := by
  obtain ⟨n, hn, hft, hres, hsuf⟩ :=
    runDecoder_inv cfg store chunks (initState sessionConversationId) st rfl rfl
      hrun
  exact ⟨⟨n, hn, by simpa using hft, hres⟩, hsuf⟩

/-- C5 witness: the invariant evaluated on the single chunk `"hi"`. -/
theorem claim_C5_amended_witness :
    (∃ n, n ≤ (["hi".toList] : List (List Char)).length ∧
       (⟨[], [], "hi".toList, [], true, false, ["hi".toList]⟩ : DState).fullText
         = (((["hi".toList] : List (List Char)).take n).map
             (cleanChunk cfgFixture storeEmpty)).flatten ∧
       ((⟨[], [], "hi".toList, [], true, false, ["hi".toList]⟩ : DState).terminated
           = false →
         (⟨[], [], "hi".toList, [], true, false, ["hi".toList]⟩ : DState).buffer
             = [] ∧
           n = (["hi".toList] : List (List Char)).length)) ∧
    (⟨[], [], "hi".toList, [], true, false, ["hi".toList]⟩ : DState).buffer
      <:+ (⟨[], [], "hi".toList, [], true, false,
            ["hi".toList]⟩ : DState).fullText :=
  claim_C5_amended cfgFixture storeEmpty [] ["hi".toList]
    ⟨[], [], "hi".toList, [], true, false, ["hi".toList]⟩ rfl

/-- C6 counterexample: the chunk `"<html>x"` contains no sentinel, yet the
final text is the fixed user error message (the HTML heuristic raises at
src/app.py line 314), not the concatenation of the rewritten normalized
chunks. -/
theorem claim_C6_counterexample :
    (handle_message cfgFixture storeEmpty [] "m6".toList
        ["<html>x".toList]).finalText ≠ "<html>x".toList := by
  decide

/-- C6 (amended): for any chunk sequence on which the processing loop
completes without raising and whose processed concatenation contains no
sentinel occurrence, the finalized text equals the reference rewriter applied
to the full concatenation of the processed chunks — no truncation. -/
theorem claim_C6_amended (cfg : AppConfig) (store : BlobStore)
    (sessionConversationId messageId : List Char) (chunks : List (List Char))
    (st : DState)
    (hrun : runDecoder cfg store (initState sessionConversationId) chunks
      = Except.ok st)
    (hno : strFind TERMINATE_TOKEN
      ((chunks.map (cleanChunk cfg store)).flatten) = none) :
    (handle_message cfg store sessionConversationId messageId chunks).finalText
      = (replace_source_reference_links cfg store
          ((chunks.map (cleanChunk cfg store)).flatten)).1 := by
  obtain ⟨hterm, hbuf, hfull⟩ :=
    runDecoder_no_token cfg store chunks (initState sessionConversationId) st rfl
      rfl hno hrun
  unfold handle_message
  rw [hrun]
  simp only []
  unfold finalizeText
  rw [hfull]
  simp only [initState, List.nil_append]
  rw [replaceAll_no_occur hno]

/-- C6 witness: the round trip evaluated on the single chunk `"hi"`. -/
theorem claim_C6_amended_witness :
    (handle_message cfgFixture storeEmpty [] "m6w".toList
        ["hi".toList]).finalText
      = (replace_source_reference_links cfgFixture storeEmpty
          ((["hi".toList].map
            (cleanChunk cfgFixture storeEmpty)).flatten)).1 :=
  claim_C6_amended cfgFixture storeEmpty [] ("m6w".toList) ["hi".toList]
    ⟨[], [], "hi".toList, [], true, false, ["hi".toList]⟩ rfl rfl

/-- C7: a markdown reference with a plain relative-path target whose blob
does not exist is removed entirely from the rewritten text — the whole
`[display](target)` markup, brackets and display text included, becomes the
empty string — and nothing is added to the resolved reference set for it. -/
theorem claim_C7_missing_reference_dropped (cfg : AppConfig) (store : BlobStore)
    (pre display target post : List Char)
    (hpre : ∀ c ∈ pre, c ≠ '[')
    (hd : display ≠ []) (hd2 : ∀ c ∈ display, c ≠ ']')
    (hsimple : isSimpleRelPath target = true)
    (hext : extensionOk target = true)
    (hmiss : store.blobExists (containerFor cfg target)
      (blobNameFor (containerFor cfg target) target) = false) :
    replace_source_reference_links cfg store
        (pre ++ ('[' :: display ++ ']' :: '(' :: target ++ ')' :: post))
      = (pre ++ (replace_source_reference_links cfg store post).1,
         (replace_source_reference_links cfg store post).2) := by
  have ht : ∀ c ∈ target, c ≠ ')' :=
    fun c hc => ((simpleRel_facts hsimple).2 c hc).2.2.2.2.2.2.2
  rw [subRefs_prepend cfg store hpre,
    subRefs_cons_match cfg store (tryMatchRef_matches hd hd2 ht hext),
    resolve_missing cfg store hsimple hmiss]

/-- C7 witness: `x [doc](report.pdf) y` with the blob missing rewrites to
`x  y` (markup fully removed) with an empty reference set. -/
theorem claim_C7_witness :
    replace_source_reference_links cfgFixture storeEmpty
        ("x ".toList ++ ('[' :: "doc".toList ++ ']' :: '(' :: "report.pdf".toList
          ++ ')' :: " y".toList))
      = ("x ".toList ++ (replace_source_reference_links cfgFixture storeEmpty
            (" y".toList)).1,
         (replace_source_reference_links cfgFixture storeEmpty
            (" y".toList)).2) :=
  claim_C7_missing_reference_dropped cfgFixture storeEmpty ("x ".toList)
    ("doc".toList) ("report.pdf".toList) (" y".toList) (by decide) (by decide)
    (by decide) (by decide) (by decide) rfl

/-- An orchestrator response answering HTTP 500. -/
def respFixture : OrchestratorResponse :=
  ⟨500, "Internal Server Error".toList, "boom".toList, ["chunk".toList]⟩

/-- C8: a response status at or above 400 makes the stream client raise
exactly one descriptive error (status, reason phrase and the error detail
read from the body) and yield no text chunk at all. -/
theorem claim_C8_error_before_yield (resp : OrchestratorResponse)
    (h : 400 ≤ resp.statusCode) :
    call_orchestrator_stream resp
      = Except.error (orchestratorErrorMessage resp) := by
  unfold call_orchestrator_stream
  rw [if_pos h]

/-- C8 witness: the HTTP 500 response raises the descriptive error with no
chunk yielded. -/
theorem claim_C8_witness :
    call_orchestrator_stream respFixture
      = Except.error
          ("Error invoking orchestrator (HTTP 500): Internal Server Error. Details: boom".toList) := by
  have h := claim_C8_error_before_yield respFixture (by decide)
  rw [h]
  rfl

/-- Metadata carrying a principal id but no `authorized` entry. -/
def metaFixture : UserMetadata := ⟨none, some "user-123", none, none, none⟩

/-- C9 counterexample: with a session user whose metadata lacks `authorized`
but names a principal id, `check_authorization` grants access yet reports
that principal id, not `no-auth` as the claim states. -/
theorem claim_C9_counterexample :
    metaFixture.authorized = none ∧
    (check_authorization (some metaFixture)).authorized = true ∧
    (check_authorization (some metaFixture)).client_principal_id ≠ "no-auth" := by
  refine ⟨rfl, rfl, ?_⟩
  decide

/-- C9 (amended): with no session user, `check_authorization` returns the
fixed anonymous context (authorized, principal id `no-auth`, name
`anonymous`); with a session user whose metadata lacks an `authorized` entry
it still grants access, with the principal id and name read from the metadata
and only defaulting to `no-auth` / `anonymous` when those entries are also
absent. -/
theorem claim_C9_absent_auth_grants (m : UserMetadata) :
    check_authorization none = ⟨true, "no-auth", "anonymous", [], none⟩ ∧
    (m.authorized = none →
      (check_authorization (some m)).authorized = true ∧
      (check_authorization (some m)).client_principal_id
        = m.client_principal_id.getD "no-auth" ∧
      (check_authorization (some m)).client_principal_name
        = m.client_principal_name.getD "anonymous") := by
  refine ⟨rfl, fun hm => ⟨?_, rfl, rfl⟩⟩
  simp [check_authorization, hm]

/-- C9 witness: the amended statement evaluated at metadata with no entries
at all. -/
theorem claim_C9_witness :
    check_authorization none = ⟨true, "no-auth", "anonymous", [], none⟩ ∧
    ((⟨none, none, none, none, none⟩ : UserMetadata).authorized = none →
      (check_authorization (some ⟨none, none, none, none, none⟩)).authorized
          = true ∧
      (check_authorization
          (some ⟨none, none, none, none, none⟩)).client_principal_id
        = (⟨none, none, none, none, none⟩
            : UserMetadata).client_principal_id.getD "no-auth" ∧
      (check_authorization
          (some ⟨none, none, none, none, none⟩)).client_principal_name
        = (⟨none, none, none, none, none⟩
            : UserMetadata).client_principal_name.getD "anonymous") :=
  claim_C9_absent_auth_grants ⟨none, none, none, none, none⟩

/-- C10: a download request whose container path segment — after stripping
surrounding whitespace and slashes — matches neither the configured documents
container nor the configured images container is answered 404
`Container not found`, and no blob access happens: the response is the same
for every blob-fetch oracle. -/
theorem claim_C10_unknown_container_rejected
    (documents_container images_container : Option (List Char))
    (fetch : List Char → BlobDownloadResult) (container_name file_path : List Char)
    (hd : documents_container
      ≠ some (stripWith (fun c => c == '/') (pyStrip container_name)))
    (hi : images_container
      ≠ some (stripWith (fun c => c == '/') (pyStrip container_name))) :
    download_blob_file documents_container images_container fetch container_name
      file_path = ⟨"Container not found".toList, 404⟩ := by
  unfold download_blob_file
  simp only []
  rw [if_neg hd, if_neg hi]

/-- C10 witness: the request for container `" other/ "` under configured
containers `documents` / `images` is rejected with 404 regardless of the
blob store. -/
theorem claim_C10_witness :
    download_blob_file (some ("documents".toList)) (some ("images".toList))
      (fun _ => BlobDownloadResult.ok ("x".toList)) (" other/ ".toList)
      ("f.pdf".toList) = ⟨"Container not found".toList, 404⟩ :=
  claim_C10_unknown_container_rejected (some ("documents".toList))
    (some ("images".toList)) (fun _ => BlobDownloadResult.ok ("x".toList))
    (" other/ ".toList) ("f.pdf".toList) (by decide) (by decide)

end GptRagUi
